import Mathlib

/-!
Verification development for the django-agenda scheduling library.

The Python sources are shallowly embedded: datetime instants become
integers, querysets become lists, Python dicts become association
lists with overwrite-on-insert, and raised exceptions become an
explicit error type mirroring the exception class hierarchy of
django_agenda.models.  Every definition is translated from the
indicated place in the source tree.
-/

set_option linter.unusedVariables false

namespace DjangoAgenda

/-- Model of a span of time: a pair of instants, as in class TimeSpan
of django_agenda/time_span.py.  Instants are integers; the field named
end in Python is end_ here because end is a reserved word. -/
structure TimeSpan where
  start : Int
  end_ : Int
  deriving DecidableEq, Repr

/-- Source: AbstractTimeSpan.is_real (time_span.py lines 16-18):
start strictly before end. -/
def TimeSpan.is_real (s : TimeSpan) : Bool :=
  decide (s.start < s.end_)

/-- Source: AbstractTimeSpan.expanded (time_span.py lines 24-26). -/
def TimeSpan.expanded (s other : TimeSpan) : TimeSpan :=
  ⟨min s.start other.start, max s.end_ other.end_⟩

/-- Source: AbstractTimeSpan.time_equals (time_span.py lines 28-30). -/
def TimeSpan.time_equals (s other : TimeSpan) : Bool :=
  decide (s.start = other.start) && decide (s.end_ = other.end_)

/-- Source: AbstractTimeSpan.contains (time_span.py lines 32-34). -/
def TimeSpan.contains (s other : TimeSpan) : Bool :=
  decide (other.start ≥ s.start) && decide (other.end_ ≤ s.end_)

/-- Source: AbstractTimeSpan.connects, as written both in
time_span.py lines 36-38 and in models.py lines 68-70.  Note that the
two comparisons are joined by a disjunction in the source. -/
def TimeSpan.connects (s other : TimeSpan) : Bool :=
  decide (other.start ≤ s.end_) || decide (other.end_ ≥ s.start)

/-- Source: AbstractTimeSpan.overlaps (time_span.py lines 40-42). -/
def TimeSpan.overlaps (s other : TimeSpan) : Bool :=
  decide (other.start < s.end_) && decide (other.end_ > s.start)

/-- Ordering used by the sort inside merge_spans: the Python code
sorts with key x.start. -/
def byStart (a b : TimeSpan) : Prop := a.start ≤ b.start

instance : DecidableRel byStart :=
  fun a b => inferInstanceAs (Decidable (a.start ≤ b.start))

instance : IsTotal TimeSpan byStart := ⟨fun a b => Int.le_total a.start b.start⟩

instance : IsTrans TimeSpan byStart := ⟨fun _ _ _ h1 h2 => le_trans h1 h2⟩

/-- Model of Python sorted(spans, key=lambda x: x.start): a stable
sort by start.  Insertion sort with a non-strict comparison computes
exactly the stable by-start ordering. -/
def start_sorted (spans : List TimeSpan) : List TimeSpan :=
  spans.insertionSort byStart

/-- The sweep loop of TimeSpan.merge_spans (time_span.py lines 75-82)
with last_start and last_end as explicit state.  When the next span
starts after the running end the running span is flushed; in either
case last_end is overwritten with the end of the next span. -/
def merge_loop (last_start last_end : Int) : List TimeSpan → List TimeSpan
  | [] => [⟨last_start, last_end⟩]
  | span :: it =>
    if span.start > last_end then
      ⟨last_start, last_end⟩ :: merge_loop span.start span.end_ it
    else
      merge_loop last_start span.end_ it

/-- Source: TimeSpan.merge_spans (time_span.py lines 64-83). -/
def TimeSpan.merge_spans (spans : List TimeSpan) : List TimeSpan :=
  match start_sorted spans with
  | [] => []
  | first :: it => merge_loop first.start first.end_ it

/-- A point lies in the union of a list of spans, reading each span as
the half-open interval from its start (inclusive) to its end
(exclusive). -/
def mem_spans (x : Int) (spans : List TimeSpan) : Prop :=
  ∃ s ∈ spans, s.start ≤ x ∧ x < s.end_

instance (x : Int) (spans : List TimeSpan) : Decidable (mem_spans x spans) :=
  List.decidableBEx _ spans

/-- The monotone-ends side condition: no span of the list reaches
further right than a span starting later.  Equivalently, no input span
strictly contains another input span together with part of the region
after it. -/
def mono_ends (l : List TimeSpan) : Prop :=
  ∀ a ∈ l, ∀ b ∈ l, a.start ≤ b.start → a.end_ ≤ b.end_

instance (l : List TimeSpan) : Decidable (mono_ends l) := by
  unfold mono_ends; infer_instance

/-- The relation between consecutive spans of the merge_spans output:
sorted by start with a strict gap after the previous end. -/
def out_rel (a b : TimeSpan) : Prop := a.start ≤ b.start ∧ a.end_ < b.start

instance : IsTrans TimeSpan out_rel :=
  ⟨fun _ b _ h1 h2 => ⟨le_trans h1.1 h2.1, lt_of_lt_of_le h1.2 h2.1⟩⟩

/-- Source: TimeSlot.avoid_span (models.py lines 453-457).  The slot
is represented by its time span, the only fields the method touches.
The second test reads the end field, which the first assignment never
modified. -/
def avoid_span (slot : TimeSpan) (span : TimeSpan) : TimeSpan :=
  let slot1 := if slot.start ≤ span.end_ then { slot with start := span.end_ } else slot
  if slot1.end_ ≥ span.start then { slot1 with end_ := span.start } else slot1

/-- Source: the queryset filter selecting surplus slots at the top of
AvailabilityOccurrence.regen (models.py lines 350-352): the two range
conditions start__gt self.end and end__lt self.start are conjoined,
exactly as Django conjoins keyword arguments of one filter call. -/
def surplus_filter (occ : TimeSpan) (slot : TimeSpan) : Bool :=
  decide (slot.start > occ.end_) && decide (slot.end_ < occ.start)

/-- Booking states (models.py lines 491-512). -/
inductive BookingState where
  | unconfirmed
  | confirmed
  | declined
  | completed
  | canceled
  | expired
  | missed
  deriving DecidableEq, Repr

/-- Errors raised by the embedded code.  The Python classes form a
chain: OverlappingTimeError extends TimeUnavailableError extends
InvalidTime extends InvalidState extends ValidationError, while
RuntimeError is unrelated. -/
inductive AgendaError where
  | runtimeError
  | validationError
  | invalidState
  | invalidTime
  | timeUnavailable
  | overlappingTime
  deriving DecidableEq, Repr

/-- Membership in the InvalidState exception class, including its
subclasses. -/
def AgendaError.isInvalidState : AgendaError → Bool
  | .invalidState | .invalidTime | .timeUnavailable | .overlappingTime => true
  | _ => false

/-- Membership in the InvalidTime exception class, including its
subclasses. -/
def AgendaError.isInvalidTime : AgendaError → Bool
  | .invalidTime | .timeUnavailable | .overlappingTime => true
  | _ => false

/-- Membership in the TimeUnavailableError exception class, including
its subclass OverlappingTimeError. -/
def AgendaError.isTimeUnavailable : AgendaError → Bool
  | .timeUnavailable | .overlappingTime => true
  | _ => false

/-- Source: AbstractBooking.cancel (models.py lines 877-892).  The
if-elif assigns DECLINED or CANCELED or raises InvalidState; when no
exception was raised, the trailing line 892 then overwrites the state
with CANCELED unconditionally.  The map models that trailing write. -/
def cancel (state : BookingState) : Except AgendaError BookingState :=
  (if state = BookingState.unconfirmed then Except.ok BookingState.declined
   else if state = BookingState.confirmed then Except.ok BookingState.canceled
   else Except.error AgendaError.invalidState).map
    (fun _ => BookingState.canceled)

/-- Source: AbstractBooking.confirm (models.py lines 894-895): the
method body is the single assignment of STATE_CONFIRMED; it performs
no check of the requested times or of the acting party. -/
def confirm (state : BookingState) (when : Int) : BookingState :=
  BookingState.confirmed

/-- Model of the example Booking of tests/models.py, restricted to the
fields its state-change methods read or write.  Users are opaque ids;
editor models the hidden set_editor context variable. -/
structure Booking where
  state : BookingState
  requested_time_1 : Option Int
  requested_time_2 : Option Int
  assignee : Option Nat
  editor : Option Nat
  deriving DecidableEq, Repr

/-- Source: Booking.cancel_with_reason (tests/models.py lines
146-167), dropping the two write-only reason fields.  As in the
abstract base, line 164 overwrites the state assigned by either branch
with CANCELED before the assignee is cleared. -/
def Booking.cancel_with_reason (b : Booking) : Except AgendaError Booking :=
  if b.editor = none then Except.error AgendaError.runtimeError
  else
    (if b.state = BookingState.unconfirmed then
       Except.ok { b with state := BookingState.declined }
     else if b.state = BookingState.confirmed then
       Except.ok { b with state := BookingState.canceled }
     else Except.error AgendaError.validationError).map
      (fun b1 => { b1 with state := BookingState.canceled, assignee := none })

/-- Source: Booking.confirm (tests/models.py lines 197-208).  Both
failure branches raise the generic ValidationError class. -/
def Booking.confirm (b : Booking) (time : Int) : Except AgendaError Booking :=
  if b.editor = none then Except.error AgendaError.runtimeError
  else if b.assignee ≠ none ∧ b.editor ≠ b.assignee then
    Except.error AgendaError.validationError
  else if ¬ (some time = b.requested_time_1 ∨ some time = b.requested_time_2) then
    Except.error AgendaError.validationError
  else
    Except.ok { b with
      requested_time_1 := some time
      requested_time_2 := none
      state := BookingState.confirmed
      assignee := none }

/-- One persisted AvailabilityOccurrence row: a database id plus its
start and end instants (models.py lines 232-261, data fields only). -/
structure OccRow where
  id : Nat
  start : Int
  end_ : Int
  deriving DecidableEq, Repr

/-- Occurrences are matched by their exact (start, end) pair. -/
abbrev OccKey := Int × Int

/-- The dictionary key of an occurrence row. -/
def OccRow.key (o : OccRow) : OccKey := (o.start, o.end_)

/-- Python dict assignment d[k] = v keyed by (start, end) pairs:
overwrite the value when the key is present, otherwise append the
binding, preserving insertion order. -/
def dict_set {β : Type} (d : List (OccKey × β)) (k : OccKey) (v : β) :
    List (OccKey × β) :=
  if d.any (fun e => e.1 = k) then
    d.map (fun e => if e.1 = k then (k, v) else e)
  else d ++ [(k, v)]

/-- Python membership test k in d. -/
def dict_has {β : Type} (d : List (OccKey × β)) (k : OccKey) : Bool :=
  d.any (fun e => e.1 = k)

/-- Python del d[k]. -/
def dict_del {β : Type} (d : List (OccKey × β)) (k : OccKey) :
    List (OccKey × β) :=
  d.filter (fun e => e.1 ≠ k)

/-- The matching sweep inside Availability.recreate_occurrences
(models.py lines 212-224): for each freshly expanded recurrence pair,
pop a matching existing occurrence from the dict, or create a new row
with the next free id.  Returns the created rows in creation order and
the leftover dict. -/
def match_recurrences (next_id : Nat) (d : List (OccKey × Nat)) :
    List OccKey → List OccRow × List (OccKey × Nat)
  | [] => ([], d)
  | r :: rs =>
    if dict_has d r then match_recurrences next_id (dict_del d r) rs
    else
      let rest := match_recurrences (next_id + 1) d rs
      (⟨next_id, r.1, r.2⟩ :: rest.1, rest.2)

/-- Source: Availability.recreate_occurrences (models.py lines
196-229) for one availability.  rows are its stored occurrences in
database order, recs the freshly expanded (start, end) pairs in order,
next_id the next free database id.  Returns the created rows, the ids
of the deleted rows, and the stored rows after the call. -/
def recreate_occurrences (rows : List OccRow) (recs : List OccKey)
    (next_id : Nat) : List OccRow × List Nat × List OccRow :=
  let d := rows.foldl (fun d o => dict_set d o.key o.id) []
  let res := match_recurrences next_id d recs
  let deleted := res.2.map (fun e => e.2)
  (res.1, deleted, rows.filter (fun o => ¬ deleted.contains o.id) ++ res.1)

/-- Model of a TimeSlot row, restricted to the fields the regeneration
and placement code reads: database id, bounds, busy flag, and the ids
of attached bookings (models.py lines 421-451). -/
structure Slot where
  id : Nat
  start : Int
  end_ : Int
  busy : Bool
  bookings : List Nat
  deriving DecidableEq, Repr

/-- The span of a slot. -/
def Slot.toSpan (s : Slot) : TimeSpan := ⟨s.start, s.end_⟩

/-- Source: the span expansion used by _maybe_make_slots (models.py
lines 401-405) and _join_slots (lines 316-317): the span expanded in
turn with the bounding box of every given slot. -/
def expand_over (span : TimeSpan) : List Slot → TimeSpan
  | [] => span
  | s :: rest => expand_over (span.expanded s.toSpan) rest

/-- Source: AvailabilityOccurrence._maybe_make_slots (models.py lines
387-418), reduced to the slot data: the bounds of the slot that is
created (no merge slots) or of the first merge slot after resizing,
together with the ids of the remaining merge slots, which are deleted.
The many-to-many bookkeeping rows it also returns are not modelled. -/
def maybe_make_slots (span : TimeSpan) (merge_slots : List Slot) :
    TimeSpan × List Nat :=
  match merge_slots with
  | [] => (span, [])
  | m :: rest => (expand_over span (m :: rest), rest.map (fun s => s.id))

/-- Source: the sweep of AvailabilityOccurrence.regen (models.py lines
362-384).  extant comes ordered by start; cursor is the moving start
of the working span, merge_slots the free unbooked slots seen since
the last obstacle.  Returns, in order, the bounds of every slot
created or resized together with the merge-slot ids deleted with it.
Busy or booked slots flush the working span, and a flush happens only
when the working span is real; merge_slots is reset either way. -/
def regen_loop (occ_end : Int) (cursor : Int) (merge_slots : List Slot) :
    List Slot → List (TimeSpan × List Nat)
  | [] =>
    let span : TimeSpan := ⟨cursor, occ_end⟩
    if span.is_real then [maybe_make_slots span merge_slots] else []
  | s :: rest =>
    if s.busy || ¬ s.bookings.isEmpty then
      let span : TimeSpan := ⟨cursor, s.start⟩
      let tail_result := regen_loop occ_end s.end_ [] rest
      if span.is_real then maybe_make_slots span merge_slots :: tail_result
      else tail_result
    else
      regen_loop occ_end cursor (merge_slots ++ [s]) rest

/-- Source: AvailabilityOccurrence.regen (models.py lines 339-384),
its sweep over the loaded slots for the occurrence span occ. -/
def regen (occ : TimeSpan) (extant : List Slot) : List (TimeSpan × List Nat) :=
  regen_loop occ.end_ occ.start [] extant

/-- Source: AvailabilityOccurrence._maybe_join_slots together with
_join_slots (models.py lines 305-337): when the span is real, one new
slot is created covering the span expanded over every unbooked slot
that connects to it; otherwise nothing is created.  Returns the bounds
of the created slot, if any. -/
def maybe_join_slots (extant : List Slot) (span : TimeSpan) : Option TimeSpan :=
  if span.is_real then
    some (expand_over span
      (extant.filter (fun s => s.bookings.isEmpty && s.toSpan.connects span)))
  else none

/-- Source: PaddedTimeSpan (time_span.py lines 89-94 and models.py
lines 100-105): a span plus its padded bounds. -/
structure PaddedTimeSpan where
  start : Int
  end_ : Int
  padded_start : Int
  padded_end : Int
  deriving DecidableEq, Repr

/-- The PaddedTimeSpan constructor: padded_start is start minus the
padding and padded_end is end plus the padding. -/
def mkPaddedTimeSpan (start end_ : Int) (padding : Int) : PaddedTimeSpan :=
  ⟨start, end_, start - padding, end_ + padding⟩

/-- The core span of a padded span. -/
def PaddedTimeSpan.toSpan (p : PaddedTimeSpan) : TimeSpan := ⟨p.start, p.end_⟩

/-- Policy hooks of AbstractBooking (models.py lines 748-851):
_book_overlapping, _book_unscheduled, and the is_duplicate predicate
over the ids of bookings attached to a slot. -/
structure Policy where
  book_overlapping : Bool
  book_unscheduled : Bool
  is_duplicate : Nat → Bool

/-- One mutation of existing slot rows performed by
find_slot_for_span: deletion, or the resize done by avoid_span. -/
inductive Mutation where
  | delete (id : Nat)
  | resize (id : Nat) (start : Int) (end_ : Int)
  deriving DecidableEq, Repr

/-- Result of a successful find_slot_for_span call: the placed span,
the matching slots, and the mutations performed on old slots.  Errors
carry the mutations already performed when the exception was raised;
in the source no mutation precedes any raise, which the embedding
reflects by raising with an empty list. -/
abbrev FindResult := PaddedTimeSpan × List Slot × List Mutation

/-- Source: AbstractBooking.find_slot_for_span (models.py lines
613-655), with the loop accumulators explicit.  all_slots keeps the
full slot argument because the final branch iterates over it again.
The busy check of the source sits after the loop, so returns inside
the loop can preempt it. -/
def find_loop (pol : Policy) (span : PaddedTimeSpan) (all_slots : List Slot)
    (free_slots busy_slots : List Slot) :
    List Slot → Except (AgendaError × List Mutation) FindResult
  | [] =>
    if ¬ busy_slots.isEmpty then
      Except.error (AgendaError.timeUnavailable, [])
    else if ¬ free_slots.isEmpty then Except.ok (span, free_slots, [])
    else if ¬ pol.book_unscheduled then
      Except.error (AgendaError.timeUnavailable, [])
    else
      Except.ok (span, [],
        all_slots.map (fun old =>
          if span.toSpan.contains old.toSpan then Mutation.delete old.id
          else
            let moved := avoid_span old.toSpan span.toSpan
            Mutation.resize old.id moved.start moved.end_))
  | slot :: rest =>
    if span.toSpan.overlaps slot.toSpan then
      if slot.busy then
        find_loop pol span all_slots free_slots (busy_slots ++ [slot]) rest
      else if ¬ slot.bookings.isEmpty ∧ slot.toSpan.time_equals span.toSpan then
        if slot.bookings.any pol.is_duplicate then
          Except.error (AgendaError.invalidState, [])
        else Except.ok (span, [slot], [])
      else if ¬ slot.bookings.isEmpty ∧ ¬ pol.book_overlapping then
        Except.error (AgendaError.overlappingTime, [])
      else if slot.toSpan.contains span.toSpan then Except.ok (span, [slot], [])
      else find_loop pol span all_slots (free_slots ++ [slot]) busy_slots rest
    else
      if ¬ slot.bookings.isEmpty then
        Except.error (AgendaError.overlappingTime, [])
      else find_loop pol span all_slots free_slots busy_slots rest

/-- Source: AbstractBooking.find_slot_for_span (models.py lines
613-655). -/
def find_slot_for_span (pol : Policy) (span : PaddedTimeSpan)
    (slots : List Slot) : Except (AgendaError × List Mutation) FindResult :=
  find_loop pol span slots [] [] slots

/-- States in which the time slots stay reserved (models.py lines
513-515). -/
def RESERVED_STATES : List BookingState :=
  [BookingState.unconfirmed, BookingState.confirmed,
   BookingState.completed, BookingState.missed]

/-- Source: Booking.get_requested_times (tests/models.py lines
132-135). -/
def Booking.get_requested_times (b : Booking) : List Int :=
  [b.requested_time_1, b.requested_time_2].filterMap id

/-- Source: Booking.get_reserved_spans (tests/models.py lines
137-143), with the class constant DURATION passed explicitly. -/
def Booking.get_reserved_spans (b : Booking) (duration : Int) : List TimeSpan :=
  if RESERVED_STATES.contains b.state then
    b.get_requested_times.map (fun t => ⟨t, t + duration⟩)
  else []

/-- The matching sweep inside AbstractBooking.slot_diff (models.py
lines 544-551): reserved spans already backed by a slot with the exact
same bounds pop that slot from the dict; the rest become padded spans
to add. -/
def slot_diff_loop (padding : Int) (d : List (OccKey × Slot)) :
    List TimeSpan → List PaddedTimeSpan × List (OccKey × Slot)
  | [] => ([], d)
  | span :: rest =>
    if dict_has d (span.start, span.end_) then
      slot_diff_loop padding (dict_del d (span.start, span.end_)) rest
    else
      let res := slot_diff_loop padding d rest
      (mkPaddedTimeSpan span.start span.end_ padding :: res.1, res.2)

/-- Source: AbstractBooking.slot_diff (models.py lines 531-552).  When
the booking has no primary key yet, the dict of existing slots stays
empty.  Returns the padded spans to add and the slots to release. -/
def slot_diff (has_pk : Bool) (time_slots : List Slot)
    (reserved : List TimeSpan) (padding : Int) :
    List PaddedTimeSpan × List Slot :=
  let d0 : List (OccKey × Slot) :=
    if has_pk then
      time_slots.foldl (fun d s => dict_set d (s.start, s.end_) s) []
    else []
  let res := slot_diff_loop padding d0 reserved
  (res.1, res.2.map (fun e => e.2))

/-- One slot created by the first pass of AbstractBooking.save:
bounds, busy flag, and the optional padding_for reference to the id of
the core slot it pads. -/
structure NewSlot where
  id : Nat
  start : Int
  end_ : Int
  busy : Bool
  padding_for : Option Nat
  deriving DecidableEq, Repr

/-- Source: the creation loop of AbstractBooking.save (models.py lines
680-702) over the found spans of one group: a core slot is created for
every span with the busy flag from _is_booked_slot_busy, and when the
padding is nonzero a leading and a trailing padding slot, both busy
and tagged padding_for the core slot, are queued as well.  Returns the
core slots and the padded slots. -/
def create_booking_slots (busy_flag : Bool) (padding : Int) (next_id : Nat) :
    List PaddedTimeSpan → List NewSlot × List NewSlot
  | [] => ([], [])
  | span :: rest =>
    let core : NewSlot := ⟨next_id, span.start, span.end_, busy_flag, none⟩
    let pads : List NewSlot :=
      if padding ≠ 0 then
        [⟨next_id + 1, span.padded_start, span.start, true, some next_id⟩,
         ⟨next_id + 2, span.end_, span.padded_end, true, some next_id⟩]
      else []
    let res := create_booking_slots busy_flag padding (next_id + 3) rest
    (core :: res.1, pads ++ res.2)

end DjangoAgenda

namespace DjangoAgenda

/-- CLAIM C2 (code evaluated at the failing input): the source version
of connects joins its two comparisons with a disjunction, so the spans
0..1 and 5..6, separated by a gap, still connect; the conjunction of
the two bound checks demanded by the claim is false there. -/
theorem connects_or_at_gap :
    TimeSpan.connects ⟨0, 1⟩ ⟨5, 6⟩ = true ∧
      ¬ (((5 : Int) ≤ 1) ∧ ((6 : Int) ≥ 0)) := by
  constructor
  · decide
  · decide

/-- CLAIM C3 (code evaluated at the failing input): cancel of an
UNCONFIRMED booking terminates in state CANCELED, not DECLINED,
because of the unconditional trailing assignment on line 892; the
CONFIRMED and error branches behave as the claim says.  The example
subclass method cancel_with_reason carries the identical slip. -/
theorem cancel_unconfirmed_ends_canceled :
    cancel BookingState.unconfirmed = Except.ok BookingState.canceled ∧
      BookingState.canceled ≠ BookingState.declined ∧
      cancel BookingState.confirmed = Except.ok BookingState.canceled ∧
      cancel BookingState.declined = Except.error AgendaError.invalidState ∧
      cancel BookingState.completed = Except.error AgendaError.invalidState ∧
      cancel BookingState.canceled = Except.error AgendaError.invalidState ∧
      cancel BookingState.expired = Except.error AgendaError.invalidState ∧
      cancel BookingState.missed = Except.error AgendaError.invalidState ∧
      Booking.cancel_with_reason ⟨BookingState.unconfirmed, none, none, none, some 1⟩
        = Except.ok ⟨BookingState.canceled, none, none, none, some 1⟩ :=
  ⟨rfl, by decide, rfl, rfl, rfl, rfl, rfl, rfl, rfl⟩

/-- CLAIM C6 (code evaluated at the failing input): the surplus-slot
filter of regen conjoins start__gt occurrence.end with end__lt
occurrence.start, so for every real occurrence span and real slot it
matches nothing; in particular the slot 0..5, wholly outside the
occurrence 10..20, is not selected for deletion. -/
theorem surplus_filter_never_matches (occ slot : TimeSpan)
    (hocc : occ.is_real = true) (hslot : slot.is_real = true) :
    surplus_filter occ slot = false := by
  simp only [surplus_filter, TimeSpan.is_real, decide_eq_true_eq] at *
  simp only [Bool.and_eq_false_iff, decide_eq_false_iff_not, not_lt]
  by_contra h
  push_neg at h
  omega

/-- Witness for surplus_filter_never_matches: the wholly-outside slot
0..5 is not deleted for the occurrence 10..20. -/
theorem surplus_filter_never_matches_witness :
    surplus_filter ⟨10, 20⟩ ⟨0, 5⟩ = false :=
  surplus_filter_never_matches ⟨10, 20⟩ ⟨0, 5⟩ (by decide) (by decide)

/-- CLAIM C10: when the slot strictly contains a real span, avoid_span
swaps the slot bounds to span.end_ and span.start, producing a
non-real slot; and after any call at all, the slot no longer overlaps
the avoided span. -/
theorem avoid_span_spec (t s : TimeSpan) :
    (t.start < s.start → t.end_ > s.end_ → s.is_real = true →
      avoid_span t s = ⟨s.end_, s.start⟩ ∧ (avoid_span t s).is_real = false) ∧
      (avoid_span t s).overlaps s = false := by
  constructor
  · intro h1 h2 h3
    simp only [TimeSpan.is_real, decide_eq_true_eq] at h3
    have hc1 : t.start ≤ s.end_ := by omega
    have hc2 : t.end_ ≥ s.start := by omega
    have heq : avoid_span t s = ⟨s.end_, s.start⟩ := by
      simp [avoid_span, hc1, hc2]
    refine ⟨heq, ?_⟩
    rw [heq]
    simp only [TimeSpan.is_real, decide_eq_false_iff_not, not_lt]
    omega
  · simp only [avoid_span]
    split_ifs with hc1 hc2 hc2 <;>
      simp only [TimeSpan.overlaps, Bool.and_eq_false_iff, decide_eq_false_iff_not,
        not_lt, gt_iff_lt] <;>
      omega

/-- Witness for avoid_span_spec: the slot 0..10 strictly contains the
real span 2..3; avoiding it yields the non-real slot 3..2, which does
not overlap 2..3. -/
theorem avoid_span_spec_witness :
    avoid_span ⟨0, 10⟩ ⟨2, 3⟩ = ⟨3, 2⟩ ∧
      (avoid_span ⟨0, 10⟩ ⟨2, 3⟩).is_real = false ∧
      (avoid_span ⟨0, 10⟩ ⟨2, 3⟩).overlaps ⟨2, 3⟩ = false := by
  refine ⟨?_, ?_, (avoid_span_spec ⟨0, 10⟩ ⟨2, 3⟩).2⟩
  · exact ((avoid_span_spec ⟨0, 10⟩ ⟨2, 3⟩).1 (by decide) (by decide) (by decide)).1
  · exact ((avoid_span_spec ⟨0, 10⟩ ⟨2, 3⟩).1 (by decide) (by decide) (by decide)).2

/-- Auxiliary: expanding a span over a list of slots only ever
enlarges it. -/
theorem expand_over_bounds (l : List Slot) (span : TimeSpan) :
    (expand_over span l).start ≤ span.start ∧
      span.end_ ≤ (expand_over span l).end_ := by
  induction l generalizing span with
  | nil => exact ⟨le_refl _, le_refl _⟩
  | cons s rest ih =>
    have h := ih (span.expanded s.toSpan)
    simp only [expand_over]
    refine ⟨le_trans h.1 ?_, le_trans ?_ h.2⟩
    · exact min_le_left _ _
    · exact le_max_left _ _

/-- Auxiliary: the slot made by _maybe_make_slots is real whenever the
flushed span is real. -/
theorem maybe_make_slots_real (span : TimeSpan) (ms : List Slot)
    (h : span.is_real = true) : (maybe_make_slots span ms).1.is_real = true := by
  cases ms with
  | nil => exact h
  | cons m rest =>
    have hb := expand_over_bounds (m :: rest) span
    simp only [maybe_make_slots]
    simp only [TimeSpan.is_real, decide_eq_true_eq] at h ⊢
    omega

/-- Auxiliary: every slot the regen sweep creates or resizes is
real. -/
theorem regen_loop_real (slots : List Slot) :
    ∀ (occ_end cursor : Int) (ms : List Slot) (p : TimeSpan × List Nat),
      p ∈ regen_loop occ_end cursor ms slots → p.1.is_real = true := by
  induction slots with
  | nil =>
    intro occ_end cursor ms p hp
    simp only [regen_loop] at hp
    by_cases h : (⟨cursor, occ_end⟩ : TimeSpan).is_real = true
    · rw [if_pos h] at hp
      simp only [List.mem_singleton] at hp
      subst hp
      exact maybe_make_slots_real _ _ h
    · rw [if_neg h] at hp
      exact absurd hp (List.not_mem_nil p)
  | cons s rest ih =>
    intro occ_end cursor ms p hp
    simp only [regen_loop] at hp
    by_cases hobs : (s.busy || ¬ s.bookings.isEmpty : Bool) = true
    · rw [if_pos hobs] at hp
      by_cases h : (⟨cursor, s.start⟩ : TimeSpan).is_real = true
      · rw [if_pos h] at hp
        rcases List.mem_cons.mp hp with hp | hp
        · subst hp
          exact maybe_make_slots_real _ _ h
        · exact ih occ_end s.end_ [] p hp
      · rw [if_neg h] at hp
        exact ih occ_end s.end_ [] p hp
    · rw [if_neg hobs] at hp
      exact ih occ_end cursor (ms ++ [s]) p hp

/-- CLAIM C9: the slot regeneration sweep never materializes a
zero-length slot: every slot that regen creates or expands, and every
slot created through _maybe_join_slots, has start strictly before end;
sub-spans with start equal to end are discarded by the is_real
guards. -/
theorem regen_no_zero_length_slots :
    (∀ (occ : TimeSpan) (extant : List Slot) (p : TimeSpan × List Nat),
        p ∈ regen occ extant → p.1.is_real = true) ∧
      (∀ (extant : List Slot) (span made : TimeSpan),
        maybe_join_slots extant span = some made → made.is_real = true) := by
  constructor
  · intro occ extant p hp
    exact regen_loop_real extant occ.end_ occ.start [] p hp
  · intro extant span made hm
    simp only [maybe_join_slots] at hm
    by_cases h : span.is_real = true
    · rw [if_pos h] at hm
      have hb := expand_over_bounds
        (extant.filter (fun s => s.bookings.isEmpty && s.toSpan.connects span)) span
      injection hm with hm
      subst hm
      simp only [TimeSpan.is_real, decide_eq_true_eq] at h ⊢
      omega
    · rw [if_neg h] at hm
      exact absurd hm (Option.some_ne_none made).symm

/-- Witness for regen_no_zero_length_slots: sweeping the occurrence
0..10 past the busy slot 3..4 yields the real trailing slot 4..10. -/
theorem regen_no_zero_length_slots_witness :
    TimeSpan.is_real ⟨4, 10⟩ = true :=
  regen_no_zero_length_slots.1 ⟨0, 10⟩ [⟨7, 3, 4, true, []⟩]
    (⟨4, 10⟩, []) (by decide)

/-- CLAIM C8: a booking save in a reserved state with a single
requested time t, duration dur and padding p greater than zero
computes exactly the reserved span t..t+dur, turns it into one padded
span to add, and the creation pass then creates, besides the core slot
for t..t+dur, exactly two padding slots t-p..t and t+dur..t+dur+p,
each busy and tagged padding_for the core slot. -/
theorem booking_padding_slots (b : Booking) (t dur p : Int)
    (busy_flag : Bool) (ts : List Slot) (n : Nat)
    (h1 : b.requested_time_1 = some t) (h2 : b.requested_time_2 = none)
    (hres : RESERVED_STATES.contains b.state = true) (hp : 0 < p) :
    b.get_reserved_spans dur = [⟨t, t + dur⟩] ∧
      (slot_diff false ts (b.get_reserved_spans dur) p).1
        = [mkPaddedTimeSpan t (t + dur) p] ∧
      (slot_diff false ts (b.get_reserved_spans dur) p).2 = [] ∧
      create_booking_slots busy_flag p n [mkPaddedTimeSpan t (t + dur) p]
        = ([⟨n, t, t + dur, busy_flag, none⟩],
           [⟨n + 1, t - p, t, true, some n⟩,
            ⟨n + 2, t + dur, t + dur + p, true, some n⟩]) := by
  have hspans : b.get_reserved_spans dur = [⟨t, t + dur⟩] := by
    simp only [Booking.get_reserved_spans]
    rw [if_pos hres]
    simp [Booking.get_requested_times, h1, h2]
  have hne : p ≠ 0 := by omega
  refine ⟨hspans, ?_, ?_, ?_⟩
  · rw [hspans]
    simp [slot_diff, slot_diff_loop, dict_has]
  · rw [hspans]
    simp [slot_diff, slot_diff_loop, dict_has]
  · simp [create_booking_slots, hne, mkPaddedTimeSpan]

/-- Witness for booking_padding_slots: an unconfirmed booking asking
for time 100 with duration 60 and padding 30. -/
theorem booking_padding_slots_witness :
    create_booking_slots true 30 0 [mkPaddedTimeSpan 100 160 30]
      = ([⟨0, 100, 160, true, none⟩],
         [⟨1, 70, 100, true, some 0⟩, ⟨2, 160, 190, true, some 0⟩]) := by
  have h := booking_padding_slots
    ⟨BookingState.unconfirmed, some 100, none, none, none⟩ 100 60 30 true [] 0
    rfl rfl (by decide) (by decide)
  simpa using h.2.2.2

/-- CLAIM C4 counterexample: for the booking with editor set, no
assignee and single requested time 10, confirming at 99 (not a
requested time) raises the generic ValidationError, which is not the
InvalidTime subclass the claim names; and the confirm of the abstract
base raises nothing at all and just sets CONFIRMED. -/
theorem confirm_claim_counterexample :
    Booking.confirm ⟨BookingState.unconfirmed, some 10, none, none, some 1⟩ 99
        = Except.error AgendaError.validationError ∧
      AgendaError.isInvalidTime AgendaError.validationError = false ∧
      confirm BookingState.unconfirmed 99 = BookingState.confirmed :=
  ⟨rfl, rfl, rfl⟩

/-- CLAIM C4 as amended: AbstractBooking.confirm unconditionally sets
CONFIRMED with no checks; the example subclass Booking.confirm, given
an editor, raises ValidationError (not the InvalidTime or InvalidState
subclasses) when the editor is not the set assignee or when the time
is not among the requested times, and on success collapses the
requested times to the single confirmed time, sets CONFIRMED and
clears the assignee. -/
theorem confirm_behaviour (b : Booking) (time : Int) (s : BookingState)
    (u : Int) (hed : b.editor ≠ none) :
    confirm s u = BookingState.confirmed ∧
      (b.assignee ≠ none → b.editor ≠ b.assignee →
        Booking.confirm b time = Except.error AgendaError.validationError) ∧
      ((b.assignee = none ∨ b.editor = b.assignee) →
        some time ≠ b.requested_time_1 → some time ≠ b.requested_time_2 →
        Booking.confirm b time = Except.error AgendaError.validationError) ∧
      ((b.assignee = none ∨ b.editor = b.assignee) →
        (some time = b.requested_time_1 ∨ some time = b.requested_time_2) →
        Booking.confirm b time = Except.ok { b with
          requested_time_1 := some time
          requested_time_2 := none
          state := BookingState.confirmed
          assignee := none }) := by
  have hnc2 : (b.assignee = none ∨ b.editor = b.assignee) →
      ¬ (b.assignee ≠ none ∧ b.editor ≠ b.assignee) := by
    rintro (h | h) ⟨ha, hb⟩
    · exact ha h
    · exact hb h
  refine ⟨rfl, ?_, ?_, ?_⟩
  · intro ha hne
    simp only [Booking.confirm, if_neg hed]
    rw [if_pos ⟨ha, hne⟩]
  · intro hor hn1 hn2
    simp only [Booking.confirm, if_neg hed]
    rw [if_neg (hnc2 hor)]
    rw [if_pos ?_]
    rintro (h | h)
    · exact hn1 h
    · exact hn2 h
  · intro hor htime
    simp only [Booking.confirm, if_neg hed]
    rw [if_neg (hnc2 hor)]
    rw [if_neg (fun h => h htime)]

/-- CLAIM C5 counterexample: the busy slot 1..2 overlaps the padded
request 1..4 around the core span 2..3, yet the placement succeeds by
returning the free slot 2..3 that contains the core span, because the
code only collects busy slots that overlap the core span.  The last
two conjuncts are the very padded-overlap conditions the find_slots
query uses for this busy slot. -/
theorem find_slot_claim_counterexample :
    find_slot_for_span ⟨false, false, fun _ => false⟩ (mkPaddedTimeSpan 2 3 1)
        [⟨0, 1, 2, true, []⟩, ⟨1, 2, 3, false, []⟩]
      = Except.ok (mkPaddedTimeSpan 2 3 1, [⟨1, 2, 3, false, []⟩], []) ∧
      (⟨0, 1, 2, true, []⟩ : Slot).busy = true ∧
      (⟨0, 1, 2, true, []⟩ : Slot).start < (mkPaddedTimeSpan 2 3 1).padded_end ∧
      (⟨0, 1, 2, true, []⟩ : Slot).end_ > (mkPaddedTimeSpan 2 3 1).padded_start :=
  ⟨rfl, rfl, by decide, by decide⟩

/-- Auxiliary: a span with the same bounds as another overlaps
whatever the other overlaps. -/
theorem overlaps_of_time_equals (a c bsp : TimeSpan)
    (h1 : a.time_equals c = true) (h2 : c.overlaps bsp = true) :
    a.overlaps bsp = true := by
  simp only [TimeSpan.time_equals, TimeSpan.overlaps, Bool.and_eq_true,
    decide_eq_true_eq] at *
  omega

/-- Auxiliary: a span containing another overlaps whatever the other
overlaps. -/
theorem overlaps_of_contains (a c bsp : TimeSpan)
    (h1 : a.contains c = true) (h2 : c.overlaps bsp = true) :
    a.overlaps bsp = true := by
  simp only [TimeSpan.contains, TimeSpan.overlaps, Bool.and_eq_true,
    decide_eq_true_eq, ge_iff_le] at *
  omega

/-- Auxiliary: the find_slot_for_span loop, in the presence of a busy
slot overlapping the core span that no other slot overlaps, always
aborts with an error from the TimeUnavailableError class and an empty
mutation list. -/
theorem find_loop_busy_blocks (pol : Policy) (span : PaddedTimeSpan)
    (all_slots : List Slot) (b : Slot) (hbusy : b.busy = true)
    (hov : span.toSpan.overlaps b.toSpan = true) (rest : List Slot) :
    ∀ free_slots busy_slots : List Slot,
      (∀ s ∈ rest, s ≠ b → s.toSpan.overlaps b.toSpan = false) →
      (b ∈ rest ∨ busy_slots ≠ []) →
      ∃ e, find_loop pol span all_slots free_slots busy_slots rest
          = Except.error (e, []) ∧ e.isTimeUnavailable = true := by
  induction rest with
  | nil =>
    intro free_slots busy_slots hdisj hin
    rcases hin with h | h
    · exact absurd h (List.not_mem_nil b)
    · have hne : ¬ (busy_slots.isEmpty = true) := by
        cases busy_slots
        · exact absurd rfl h
        · simp
      refine ⟨AgendaError.timeUnavailable, ?_, rfl⟩
      simp only [find_loop]
      rw [if_pos hne]
  | cons slot rest ih =>
    intro free_slots busy_slots hdisj hin
    have hdisj' : ∀ s ∈ rest, s ≠ b → s.toSpan.overlaps b.toSpan = false :=
      fun s hs => hdisj s (List.mem_cons_of_mem _ hs)
    have hheaddisj := hdisj slot (List.mem_cons_self _ _)
    simp only [find_loop]
    by_cases c1 : span.toSpan.overlaps slot.toSpan = true
    · rw [if_pos c1]
      by_cases c2 : slot.busy = true
      · rw [if_pos c2]
        refine ih free_slots (busy_slots ++ [slot]) hdisj' (Or.inr ?_)
        simp
      · rw [if_neg c2]
        have hslotb : slot ≠ b := fun heq => c2 (by rw [heq]; exact hbusy)
        have hsb := hheaddisj hslotb
        by_cases c3 : ¬ (slot.bookings.isEmpty = true) ∧
            slot.toSpan.time_equals span.toSpan = true
        · exact absurd (overlaps_of_time_equals _ _ _ c3.2 hov) (by rw [hsb]; simp)
        · rw [if_neg c3]
          by_cases c4 : ¬ (slot.bookings.isEmpty = true) ∧
              ¬ (pol.book_overlapping = true)
          · rw [if_pos c4]
            exact ⟨AgendaError.overlappingTime, rfl, rfl⟩
          · rw [if_neg c4]
            by_cases c5 : slot.toSpan.contains span.toSpan = true
            · exact absurd (overlaps_of_contains _ _ _ c5 hov) (by rw [hsb]; simp)
            · rw [if_neg c5]
              refine ih (free_slots ++ [slot]) busy_slots hdisj' ?_
              rcases hin with h | h
              · rcases List.mem_cons.mp h with h | h
                · exact absurd h.symm hslotb
                · exact Or.inl h
              · exact Or.inr h
    · rw [if_neg c1]
      have hslotb : b ≠ slot := fun heq => c1 (by rw [← heq]; exact hov)
      by_cases c6 : ¬ (slot.bookings.isEmpty = true)
      · rw [if_pos c6]
        exact ⟨AgendaError.overlappingTime, rfl, rfl⟩
      · rw [if_neg c6]
        refine ih free_slots busy_slots hdisj' ?_
        rcases hin with h | h
        · rcases List.mem_cons.mp h with h | h
          · exact absurd h hslotb
          · exact Or.inl h
        · exact Or.inr h

/-- CLAIM C5 as amended: when some busy slot overlaps the core
requested span and the slots are pairwise non-overlapping (it suffices
that no other slot overlaps the busy one, which is the documented slot
invariant), find_slot_for_span fails with an error from the
TimeUnavailableError class, whatever the policy flags, and the
mutation list accompanying the error is empty: no slot was created or
mutated.  A busy slot overlapping only the padding margins does not by
itself force a failure, as the counterexample shows. -/
theorem find_slot_busy_blocks (pol : Policy) (span : PaddedTimeSpan)
    (slots : List Slot) (b : Slot) (hmem : b ∈ slots) (hbusy : b.busy = true)
    (hov : span.toSpan.overlaps b.toSpan = true)
    (hdisj : ∀ s ∈ slots, s ≠ b → s.toSpan.overlaps b.toSpan = false) :
    ∃ e, find_slot_for_span pol span slots = Except.error (e, []) ∧
      e.isTimeUnavailable = true :=
  find_loop_busy_blocks pol span slots b hbusy hov slots [] [] hdisj
    (Or.inl hmem)

/-- Witness for find_slot_busy_blocks: a lone busy slot 2..5 inside
the unpadded request 0..10. -/
theorem find_slot_busy_blocks_witness :
    ∃ e, find_slot_for_span ⟨false, false, fun _ => false⟩
        (mkPaddedTimeSpan 0 10 0) [⟨0, 2, 5, true, []⟩]
      = Except.error (e, []) ∧ e.isTimeUnavailable = true :=
  find_slot_busy_blocks ⟨false, false, fun _ => false⟩ (mkPaddedTimeSpan 0 10 0)
    [⟨0, 2, 5, true, []⟩] ⟨0, 2, 5, true, []⟩ (by decide) rfl (by decide)
    (by decide)

/-- Auxiliary: two booleans agreeing as propositions are equal. -/
theorem bool_eq_of_iff {a b : Bool} (h : a = true ↔ b = true) : a = b := by
  cases a <;> cases b <;> simp_all

/-- Auxiliary: dictionary membership unfolded. -/
theorem dict_has_iff {β : Type} (d : List (OccKey × β)) (k : OccKey) :
    dict_has d k = true ↔ ∃ e ∈ d, e.1 = k := by
  simp [dict_has, List.any_eq_true]

/-- Auxiliary: membership after a dictionary deletion. -/
theorem dict_del_mem {β : Type} (d : List (OccKey × β)) (r : OccKey)
    (e : OccKey × β) : e ∈ dict_del d r ↔ e ∈ d ∧ e.1 ≠ r := by
  simp [dict_del, List.mem_filter]

/-- Auxiliary: deleting one key leaves the others. -/
theorem dict_has_del {β : Type} (d : List (OccKey × β)) (r k : OccKey)
    (h : k ≠ r) : dict_has (dict_del d r) k = dict_has d k := by
  apply bool_eq_of_iff
  rw [dict_has_iff, dict_has_iff]
  constructor
  · rintro ⟨e, he, hk⟩
    exact ⟨e, ((dict_del_mem d r e).mp he).1, hk⟩
  · rintro ⟨e, he, hk⟩
    exact ⟨e, (dict_del_mem d r e).mpr ⟨he, by rw [hk]; exact h⟩, hk⟩

/-- Auxiliary: building the occurrence dict from rows with pairwise
distinct keys appends one binding per row. -/
theorem dict_build_append (rows : List OccRow) :
    ∀ d : List (OccKey × Nat),
      (∀ o ∈ rows, dict_has d o.key = false) →
      (rows.map OccRow.key).Nodup →
      rows.foldl (fun d o => dict_set d o.key o.id) d
        = d ++ rows.map (fun o => (o.key, o.id)) := by
  induction rows with
  | nil =>
    intro d _ _
    simp
  | cons o rest ih =>
    intro d hdis hnod
    rw [List.map_cons, List.nodup_cons] at hnod
    obtain ⟨hkey, hnod'⟩ := hnod
    simp only [List.foldl_cons]
    have hset : dict_set d o.key o.id = d ++ [(o.key, o.id)] := by
      have h := hdis o (List.mem_cons_self _ _)
      simp only [dict_has] at h
      simp [dict_set, h]
    rw [hset, ih (d ++ [(o.key, o.id)]) ?_ hnod']
    · simp
    · intro o' ho'
      have hne : o.key ≠ o'.key := by
        intro he
        exact hkey (he ▸ List.mem_map_of_mem OccRow.key ho')
      have hd := hdis o' (List.mem_cons_of_mem _ ho')
      simp only [dict_has] at hd
      simp only [dict_has, List.any_append, hd, Bool.false_or]
      simp [hne]

/-- Auxiliary: the dict built by recreate_occurrences, for rows with
pairwise distinct keys. -/
theorem dict_build_eq (rows : List OccRow)
    (h : (rows.map OccRow.key).Nodup) :
    rows.foldl (fun d o => dict_set d o.key o.id) []
      = rows.map (fun o => (o.key, o.id)) := by
  simpa using dict_build_append rows [] (fun o _ => rfl) h

/-- Auxiliary: the pop branch of the matching sweep. -/
theorem match_recurrences_pop (n : Nat) (d : List (OccKey × Nat))
    (r : OccKey) (rs : List OccKey) (h : dict_has d r = true) :
    match_recurrences n d (r :: rs) = match_recurrences n (dict_del d r) rs := by
  simp only [match_recurrences]
  rw [if_pos h]

/-- Auxiliary: the create branch of the matching sweep. -/
theorem match_recurrences_create (n : Nat) (d : List (OccKey × Nat))
    (r : OccKey) (rs : List OccKey) (h : ¬ dict_has d r = true) :
    match_recurrences n d (r :: rs)
      = (⟨n, r.1, r.2⟩ :: (match_recurrences (n + 1) d rs).1,
         (match_recurrences (n + 1) d rs).2) := by
  simp only [match_recurrences]
  rw [if_neg h]

/-- Auxiliary: the keys of the rows the matching sweep creates are the
expanded pairs with no match in the dict. -/
theorem match_created_mem (recs : List OccKey) :
    ∀ (d : List (OccKey × Nat)) (n : Nat), recs.Nodup →
      ∀ k, k ∈ (match_recurrences n d recs).1.map OccRow.key
        ↔ (k ∈ recs ∧ dict_has d k = false) := by
  induction recs with
  | nil =>
    intro d n _ k
    simp [match_recurrences]
  | cons r rs ih =>
    intro d n hnod k
    have hr_notin : r ∉ rs := (List.nodup_cons.mp hnod).1
    have hrs : rs.Nodup := (List.nodup_cons.mp hnod).2
    by_cases hr : dict_has d r = true
    · rw [match_recurrences_pop n d r rs hr, ih _ n hrs k]
      constructor
      · rintro ⟨hk, hhas⟩
        have hkr : k ≠ r := fun he => hr_notin (he ▸ hk)
        exact ⟨List.mem_cons_of_mem _ hk,
          by rw [← dict_has_del d r k hkr]; exact hhas⟩
      · rintro ⟨hk, hhas⟩
        have hkr : k ≠ r := by
          intro he
          subst he
          rw [hhas] at hr
          exact Bool.false_ne_true hr
        rcases List.mem_cons.mp hk with he | hk2
        · exact absurd he hkr
        · exact ⟨hk2, by rw [dict_has_del d r k hkr]; exact hhas⟩
    · simp only [match_recurrences_create n d r rs hr]
      rw [List.map_cons, show OccRow.key ⟨n, r.1, r.2⟩ = r from rfl,
        List.mem_cons, ih d (n + 1) hrs k]
      constructor
      · rintro (he | ⟨hk, hhas⟩)
        · subst he
          exact ⟨List.mem_cons_self _ _, by simpa using hr⟩
        · exact ⟨List.mem_cons_of_mem _ hk, hhas⟩
      · rintro ⟨hk, hhas⟩
        rcases List.mem_cons.mp hk with he | hk2
        · exact Or.inl he
        · exact Or.inr ⟨hk2, hhas⟩

/-- Auxiliary: the leftover dict after the matching sweep holds
exactly the bindings whose key was not expanded. -/
theorem match_leftover_mem (recs : List OccKey) :
    ∀ (d : List (OccKey × Nat)) (n : Nat) (e : OccKey × Nat),
      e ∈ (match_recurrences n d recs).2 ↔ (e ∈ d ∧ e.1 ∉ recs) := by
  induction recs with
  | nil =>
    intro d n e
    simp [match_recurrences]
  | cons r rs ih =>
    intro d n e
    by_cases hr : dict_has d r = true
    · rw [match_recurrences_pop n d r rs hr, ih (dict_del d r) n e,
        dict_del_mem]
      constructor
      · rintro ⟨⟨hd, hne⟩, hnin⟩
        refine ⟨hd, ?_⟩
        intro hm
        rcases List.mem_cons.mp hm with he | hm2
        · exact hne he
        · exact hnin hm2
      · rintro ⟨hd, hnin⟩
        exact ⟨⟨hd, fun he => hnin (he ▸ List.mem_cons_self _ _)⟩,
          fun hm => hnin (List.mem_cons_of_mem _ hm)⟩
    · rw [match_recurrences_create n d r rs hr]
      rw [show ((⟨n, r.1, r.2⟩ : OccRow) :: (match_recurrences (n + 1) d rs).1,
          (match_recurrences (n + 1) d rs).2).2
          = (match_recurrences (n + 1) d rs).2 from rfl]
      rw [ih d (n + 1) e]
      have hnor : ∀ e2 ∈ d, e2.1 ≠ r := by
        intro e2 he2 heq
        exact hr ((dict_has_iff d r).mpr ⟨e2, he2, heq⟩)
      constructor
      · rintro ⟨hd, hnin⟩
        refine ⟨hd, ?_⟩
        intro hm
        rcases List.mem_cons.mp hm with he | hm2
        · exact hnor e hd he
        · exact hnin hm2
      · rintro ⟨hd, hnin⟩
        exact ⟨hd, fun hm => hnin (List.mem_cons_of_mem _ hm)⟩

/-- Auxiliary: the created rows carry pairwise distinct keys. -/
theorem match_created_keys_nodup (recs : List OccKey) :
    ∀ (d : List (OccKey × Nat)) (n : Nat), recs.Nodup →
      ((match_recurrences n d recs).1.map OccRow.key).Nodup := by
  induction recs with
  | nil =>
    intro d n _
    simp [match_recurrences]
  | cons r rs ih =>
    intro d n hnod
    have hr_notin : r ∉ rs := (List.nodup_cons.mp hnod).1
    have hrs : rs.Nodup := (List.nodup_cons.mp hnod).2
    by_cases hr : dict_has d r = true
    · rw [match_recurrences_pop n d r rs hr]
      exact ih _ n hrs
    · rw [match_recurrences_create n d r rs hr]
      simp only [List.map_cons, List.nodup_cons]
      refine ⟨?_, ih d (n + 1) hrs⟩
      rw [show OccRow.key ⟨n, r.1, r.2⟩ = r from rfl,
        match_created_mem rs d (n + 1) hrs r]
      rintro ⟨hmem, _⟩
      exact hr_notin hmem

/-- Auxiliary: after one reconciliation run from rows with distinct
keys and distinct ids against distinct expanded pairs, the stored
occurrence keys are exactly the expanded pairs, without duplicates. -/
theorem recreate_state_keys (rows : List OccRow) (recs : List OccKey) (n : Nat)
    (hkeys : (rows.map OccRow.key).Nodup) (hids : (rows.map OccRow.id).Nodup)
    (hrecs : recs.Nodup) :
    ((recreate_occurrences rows recs n).2.2.map OccRow.key).Nodup ∧
      ∀ k, k ∈ (recreate_occurrences rows recs n).2.2.map OccRow.key
        ↔ k ∈ recs := by
  have hinj := List.inj_on_of_nodup_map hids
  simp only [recreate_occurrences, dict_build_eq rows hkeys]
  set d := rows.map (fun o => (o.key, o.id)) with hd
  set created := (match_recurrences n d recs).1 with hcreated
  set leftover := (match_recurrences n d recs).2 with hleftover
  set deleted := leftover.map (fun e => e.2) with hdeleted
  have hhas_d : ∀ k, dict_has d k = true ↔ k ∈ rows.map OccRow.key := by
    intro k
    rw [dict_has_iff]
    constructor
    · rintro ⟨e, he, hk⟩
      rw [hd] at he
      rcases List.mem_map.mp he with ⟨o, ho, rfl⟩
      exact hk ▸ List.mem_map_of_mem OccRow.key ho
    · intro hk
      rcases List.mem_map.mp hk with ⟨o, ho, rfl⟩
      exact ⟨(o.key, o.id), List.mem_map_of_mem _ ho, rfl⟩
  have hdel_iff : ∀ o ∈ rows, (o.id ∈ deleted ↔ o.key ∉ recs) := by
    intro o ho
    rw [hdeleted]
    constructor
    · intro hid
      rcases List.mem_map.mp hid with ⟨e, he, hei⟩
      rcases (match_leftover_mem recs d n e).mp he with ⟨hed, hnin⟩
      rw [hd] at hed
      rcases List.mem_map.mp hed with ⟨o', ho', rfl⟩
      have : o' = o := hinj ho' ho hei
      subst this
      exact hnin
    · intro hnin
      refine List.mem_map.mpr ⟨(o.key, o.id), ?_, rfl⟩
      exact (match_leftover_mem recs d n (o.key, o.id)).mpr
        ⟨by rw [hd]; exact List.mem_map_of_mem _ ho, hnin⟩
  have hsurv : ∀ o,
      o ∈ rows.filter (fun o => ¬ deleted.contains o.id) ↔
        (o ∈ rows ∧ o.key ∈ recs) := by
    intro o
    rw [List.mem_filter]
    constructor
    · rintro ⟨ho, hp⟩
      refine ⟨ho, ?_⟩
      by_contra hnin
      have : o.id ∈ deleted := (hdel_iff o ho).mpr hnin
      simp [List.elem_iff, this] at hp
    · rintro ⟨ho, hin⟩
      refine ⟨ho, ?_⟩
      have : o.id ∉ deleted := fun hidin => ((hdel_iff o ho).mp hidin) hin
      simp [List.elem_iff, this]
  constructor
  · rw [List.map_append, List.nodup_append]
    refine ⟨?_, ?_, ?_⟩
    · exact hkeys.sublist ((List.filter_sublist rows).map OccRow.key)
    · exact match_created_keys_nodup recs d n hrecs
    · intro k hk1 hk2
      rcases List.mem_map.mp hk1 with ⟨o, ho, rfl⟩
      have hor : o ∈ rows := ((hsurv o).mp ho).1
      have hfalse := ((match_created_mem recs d n hrecs o.key).mp hk2).2
      have htrue : dict_has d o.key = true :=
        (hhas_d o.key).mpr (List.mem_map_of_mem OccRow.key hor)
      rw [htrue] at hfalse
      simp at hfalse
  · intro k
    rw [List.map_append, List.mem_append]
    constructor
    · rintro (hk | hk)
      · rcases List.mem_map.mp hk with ⟨o, ho, rfl⟩
        exact ((hsurv o).mp ho).2
      · exact ((match_created_mem recs d n hrecs k).mp hk).1
    · intro hk
      by_cases hrow : k ∈ rows.map OccRow.key
      · rcases List.mem_map.mp hrow with ⟨o, ho, rfl⟩
        exact Or.inl (List.mem_map_of_mem OccRow.key ((hsurv o).mpr ⟨ho, hk⟩))
      · refine Or.inr ((match_created_mem recs d n hrecs k).mpr ⟨hk, ?_⟩)
        have : ¬ dict_has d k = true := fun h => hrow ((hhas_d k).mp h)
        simpa using this

/-- Auxiliary: reconciliation over a state whose keys are exactly the
expanded pairs creates nothing and deletes nothing. -/
theorem recreate_noop_of (rows2 : List OccRow) (recs : List OccKey) (n : Nat)
    (hkeys2 : (rows2.map OccRow.key).Nodup) (hrecs : recs.Nodup)
    (hiff : ∀ k, k ∈ rows2.map OccRow.key ↔ k ∈ recs) :
    (recreate_occurrences rows2 recs n).1 = [] ∧
      (recreate_occurrences rows2 recs n).2.1 = [] := by
  simp only [recreate_occurrences, dict_build_eq rows2 hkeys2]
  set d := rows2.map (fun o => (o.key, o.id)) with hd
  have hhas_d : ∀ k, dict_has d k = true ↔ k ∈ rows2.map OccRow.key := by
    intro k
    rw [dict_has_iff]
    constructor
    · rintro ⟨e, he, hk⟩
      rw [hd] at he
      rcases List.mem_map.mp he with ⟨o, ho, rfl⟩
      exact hk ▸ List.mem_map_of_mem OccRow.key ho
    · intro hk
      rcases List.mem_map.mp hk with ⟨o, ho, rfl⟩
      exact ⟨(o.key, o.id), List.mem_map_of_mem _ ho, rfl⟩
  have hleft : (match_recurrences n d recs).2 = [] := by
    rw [List.eq_nil_iff_forall_not_mem]
    intro e he
    rcases (match_leftover_mem recs d n e).mp he with ⟨hed, hnin⟩
    rw [hd] at hed
    rcases List.mem_map.mp hed with ⟨o, ho, rfl⟩
    exact hnin ((hiff o.key).mp (List.mem_map_of_mem OccRow.key ho))
  constructor
  · rw [List.eq_nil_iff_forall_not_mem]
    intro o ho
    rcases (match_created_mem recs d n hrecs o.key).mp
      (List.mem_map_of_mem OccRow.key ho) with ⟨hin, hhas⟩
    have htrue : dict_has d o.key = true :=
      (hhas_d o.key).mpr ((hiff o.key).mpr hin)
    rw [htrue] at hhas
    simp at hhas
  · rw [hleft]
    simp

/-- CLAIM C7 counterexample: with two stored occurrence rows sharing
the pair (5, 6) and no expanded pairs, the first run deletes only the
dict representative, so the second run still deletes a row; and with
the pair (5, 6) expanded twice over an empty store, the first run
creates two rows but the second run still creates another, since a
created row is never put into the matching dict. -/
theorem recreate_claim_counterexample :
    (recreate_occurrences
        (recreate_occurrences [⟨0, 5, 6⟩, ⟨1, 5, 6⟩] [] 2).2.2 [] 3).2.1
      = [0] ∧
      (recreate_occurrences
          (recreate_occurrences [] [(5, 6), (5, 6)] 0).2.2 [(5, 6), (5, 6)] 2).1
        = [⟨2, 5, 6⟩] ∧
      ([0] : List Nat) ≠ [] ∧ ([⟨2, 5, 6⟩] : List OccRow) ≠ [] := by
  decide

/-- CLAIM C7 as amended: when the stored occurrences of the
availability have pairwise distinct (start, end) pairs and distinct
ids, and the freshly expanded recurrence pairs are pairwise distinct,
running recreate_occurrences a second time with no intervening change
creates zero occurrences and deletes zero occurrences. -/
theorem recreate_occurrences_idempotent (rows : List OccRow)
    (recs : List OccKey) (n1 n2 : Nat)
    (hkeys : (rows.map OccRow.key).Nodup)
    (hids : (rows.map OccRow.id).Nodup) (hrecs : recs.Nodup) :
    (recreate_occurrences (recreate_occurrences rows recs n1).2.2 recs n2).1
        = [] ∧
      (recreate_occurrences (recreate_occurrences rows recs n1).2.2 recs n2).2.1
        = [] := by
  obtain ⟨h1, h2⟩ := recreate_state_keys rows recs n1 hkeys hids hrecs
  exact recreate_noop_of _ recs n2 h1 hrecs h2

/-- Witness for recreate_occurrences_idempotent: one stored row 1..2
matching the single expanded pair (1, 2). -/
theorem recreate_occurrences_idempotent_witness :
    (recreate_occurrences
        (recreate_occurrences [⟨0, 1, 2⟩] [(1, 2)] 5).2.2 [(1, 2)] 6).1 = [] ∧
      (recreate_occurrences
          (recreate_occurrences [⟨0, 1, 2⟩] [(1, 2)] 5).2.2 [(1, 2)] 6).2.1
        = [] :=
  recreate_occurrences_idempotent [⟨0, 1, 2⟩] [(1, 2)] 5 6
    (by decide) (by decide) (by decide)

/-- Auxiliary: the sweep output always begins with a span starting at
last_start. -/
theorem merge_loop_head (it : List TimeSpan) :
    ∀ ls le : Int, ∃ e t, merge_loop ls le it = ⟨ls, e⟩ :: t := by
  induction it with
  | nil =>
    intro ls le
    exact ⟨le, [], rfl⟩
  | cons s rest ih =>
    intro ls le
    by_cases h : s.start > le
    · simp only [merge_loop]
      rw [if_pos h]
      exact ⟨le, merge_loop s.start s.end_ rest, rfl⟩
    · simp only [merge_loop]
      rw [if_neg h]
      exact ih ls s.end_

/-- Auxiliary: on a by-start-sorted remainder whose starts lie at or
after last_start, the sweep emits spans linked by out_rel. -/
theorem merge_loop_chain (it : List TimeSpan) :
    ∀ ls le : Int, it.Sorted byStart → (∀ s ∈ it, ls ≤ s.start) →
      List.Chain' out_rel (merge_loop ls le it) := by
  induction it with
  | nil =>
    intro ls le _ _
    exact List.chain'_singleton _
  | cons s rest ih =>
    intro ls le hsorted hge
    obtain ⟨hhead, hrest⟩ := List.sorted_cons.mp hsorted
    have hls_s : ls ≤ s.start := hge s (List.mem_cons_self _ _)
    by_cases h : s.start > le
    · simp only [merge_loop]
      rw [if_pos h]
      obtain ⟨e, t, heq⟩ := merge_loop_head rest s.start s.end_
      rw [heq, List.chain'_cons]
      refine ⟨⟨hls_s, h⟩, ?_⟩
      rw [← heq]
      exact ih s.start s.end_ hrest hhead
    · simp only [merge_loop]
      rw [if_neg h]
      exact ih ls s.end_ hrest
        (fun t ht => le_trans hls_s (hhead t ht))

/-- Auxiliary: consecutive merge_spans outputs are linked by
out_rel. -/
theorem merge_spans_chain (l : List TimeSpan) :
    List.Chain' out_rel (TimeSpan.merge_spans l) := by
  unfold TimeSpan.merge_spans
  have hsorted := List.sorted_insertionSort byStart l
  cases hs : start_sorted l with
  | nil => exact List.chain'_nil
  | cons first it =>
    rw [show List.insertionSort byStart l = start_sorted l from rfl, hs] at hsorted
    obtain ⟨hfirst, hit⟩ := List.sorted_cons.mp hsorted
    exact merge_loop_chain it first.start first.end_ hit hfirst

/-- Auxiliary: the merge_spans output is pairwise ordered with strict
gaps. -/
theorem merge_spans_pairwise (l : List TimeSpan) :
    (TimeSpan.merge_spans l).Pairwise out_rel :=
  List.chain'_iff_pairwise.mp (merge_spans_chain l)

/-- Auxiliary: the sweep leaves a gap-chained list untouched. -/
theorem merge_loop_of_chain (it : List TimeSpan) :
    ∀ a : TimeSpan, List.Chain' out_rel (a :: it) →
      merge_loop a.start a.end_ it = a :: it := by
  induction it with
  | nil =>
    intro a _
    simp [merge_loop]
  | cons s rest ih =>
    intro a h
    have hrel : out_rel a s := (List.chain'_cons.mp h).1
    have hrest : List.Chain' out_rel (s :: rest) := (List.chain'_cons.mp h).2
    simp only [merge_loop]
    rw [if_pos hrel.2, ih s hrest]

/-- Auxiliary: merge_spans fixes every sorted gap-chained list. -/
theorem merge_spans_of_chain (m : List TimeSpan)
    (h : List.Chain' out_rel m) (hs : m.Sorted byStart) :
    TimeSpan.merge_spans m = m := by
  unfold TimeSpan.merge_spans
  rw [show start_sorted m = m from List.Sorted.insertionSort_eq hs]
  cases m with
  | nil => rfl
  | cons first it => exact merge_loop_of_chain it first h

/-- Auxiliary: membership in the union of a consed span list. -/
theorem mem_spans_cons (x : Int) (a : TimeSpan) (l : List TimeSpan) :
    mem_spans x (a :: l) ↔ (a.start ≤ x ∧ x < a.end_) ∨ mem_spans x l := by
  simp [mem_spans, List.exists_mem_cons_iff]

/-- Auxiliary: permutations leave the union of a span list
unchanged. -/
theorem mem_spans_perm (l m : List TimeSpan) (h : l.Perm m) (x : Int) :
    mem_spans x l ↔ mem_spans x m := by
  unfold mem_spans
  constructor
  · rintro ⟨s, hs, hx⟩
    exact ⟨s, h.mem_iff.mp hs, hx⟩
  · rintro ⟨s, hs, hx⟩
    exact ⟨s, h.mem_iff.mpr hs, hx⟩

/-- Auxiliary: the union computed by the sweep, for a sorted remainder
with monotone ends lying at or after the running span. -/
theorem merge_loop_mem (it : List TimeSpan) :
    ∀ (ls le x : Int), it.Sorted byStart →
      it.Pairwise (fun a b : TimeSpan => a.end_ ≤ b.end_) →
      (∀ s ∈ it, ls ≤ s.start ∧ le ≤ s.end_) →
      (mem_spans x (merge_loop ls le it) ↔
        ((ls ≤ x ∧ x < le) ∨ mem_spans x it)) := by
  induction it with
  | nil =>
    intro ls le x _ _ _
    simp [merge_loop, mem_spans]
  | cons s rest ih =>
    intro ls le x hsorted hmono hbound
    obtain ⟨hhead, hrest⟩ := List.sorted_cons.mp hsorted
    obtain ⟨hmhead, hmrest⟩ := List.pairwise_cons.mp hmono
    obtain ⟨hls_s, hle_s⟩ := hbound s (List.mem_cons_self _ _)
    by_cases h : s.start > le
    · simp only [merge_loop]
      rw [if_pos h, mem_spans_cons,
        ih s.start s.end_ x hrest hmrest
          (fun t ht => ⟨hhead t ht, hmhead t ht⟩),
        mem_spans_cons]
    · simp only [merge_loop]
      rw [if_neg h]
      push_neg at h
      rw [ih ls s.end_ x hrest hmrest
        (fun t ht => ⟨le_trans hls_s (hhead t ht), hmhead t ht⟩),
        mem_spans_cons]
      constructor
      · rintro (⟨h1, h2⟩ | hm)
        · by_cases hx : x < le
          · exact Or.inl ⟨h1, hx⟩
          · push_neg at hx
            exact Or.inr (Or.inl ⟨le_trans h hx, h2⟩)
        · exact Or.inr (Or.inr hm)
      · rintro (⟨h1, h2⟩ | ⟨h1, h2⟩ | hm)
        · exact Or.inl ⟨h1, lt_of_lt_of_le h2 hle_s⟩
        · exact Or.inl ⟨le_trans hls_s h1, h2⟩
        · exact Or.inr hm

/-- Auxiliary: under the monotone-ends condition the union of the
merge_spans output equals the union of the inputs. -/
theorem merge_spans_mem (l : List TimeSpan) (hmono : mono_ends l) (x : Int) :
    mem_spans x (TimeSpan.merge_spans l) ↔ mem_spans x l := by
  have hperm : (start_sorted l).Perm l := List.perm_insertionSort byStart l
  have hsorted := List.sorted_insertionSort byStart l
  rw [show List.insertionSort byStart l = start_sorted l from rfl] at hsorted
  have hmono' : (start_sorted l).Pairwise (fun a b : TimeSpan => a.end_ ≤ b.end_) := by
    refine List.Pairwise.imp_of_mem ?_ hsorted
    intro a b ha hb hr
    exact hmono a (hperm.mem_iff.mp ha) b (hperm.mem_iff.mp hb) hr
  rw [← mem_spans_perm _ _ hperm x]
  unfold TimeSpan.merge_spans
  cases hs : start_sorted l with
  | nil => simp
  | cons first it =>
    rw [hs] at hsorted hmono'
    obtain ⟨hfirst, hit⟩ := List.sorted_cons.mp hsorted
    obtain ⟨hmfirst, hmit⟩ := List.pairwise_cons.mp hmono'
    rw [merge_loop_mem it first.start first.end_ x hit hmit
      (fun t ht => ⟨hfirst t ht, hmfirst t ht⟩), mem_spans_cons]

/-- Auxiliary: two by-start-sorted permutations of a list satisfying
the monotone-ends condition are equal. -/
theorem sorted_perm_eq (l1 : List TimeSpan) :
    ∀ l2, l1.Perm l2 → l1.Sorted byStart → l2.Sorted byStart →
      (∀ a ∈ l1, ∀ b ∈ l1, a.start ≤ b.start → a.end_ ≤ b.end_) →
      l1 = l2 := by
  induction l1 with
  | nil =>
    intro l2 hp _ _ _
    exact (hp.symm.eq_nil).symm
  | cons a t1 ih =>
    intro l2 hp hs1 hs2 hmono
    cases l2 with
    | nil =>
      have := hp.length_eq
      simp at this
    | cons b t2 =>
      obtain ⟨ha1, hs1'⟩ := List.sorted_cons.mp hs1
      obtain ⟨hb2, hs2'⟩ := List.sorted_cons.mp hs2
      have hab : a = b := by
        have hain : a ∈ b :: t2 := hp.mem_iff.mp (List.mem_cons_self _ _)
        have hbin : b ∈ a :: t1 := hp.mem_iff.mpr (List.mem_cons_self _ _)
        rcases List.mem_cons.mp hain with he | hat2
        · exact he
        · rcases List.mem_cons.mp hbin with he | hbt1
          · exact he.symm
          · have h1 : a.start ≤ b.start := ha1 b hbt1
            have h2 : b.start ≤ a.start := hb2 a hat2
            have he1 : a.end_ ≤ b.end_ :=
              hmono a (List.mem_cons_self _ _) b (List.mem_cons_of_mem _ hbt1) h1
            have he2 : b.end_ ≤ a.end_ :=
              hmono b (List.mem_cons_of_mem _ hbt1) a (List.mem_cons_self _ _) h2
            have hstart : a.start = b.start := le_antisymm h1 h2
            have hend : a.end_ = b.end_ := le_antisymm he1 he2
            cases a
            cases b
            simp_all
      subst hab
      have hperm' : t1.Perm t2 := hp.cons_inv
      rw [ih t2 hperm' hs1' hs2'
        (fun x hx y hy =>
          hmono x (List.mem_cons_of_mem _ hx) y (List.mem_cons_of_mem _ hy))]

/-- Auxiliary: under the monotone-ends condition merge_spans does not
depend on the order of its input. -/
theorem merge_spans_perm (l1 l2 : List TimeSpan) (hp : l1.Perm l2)
    (hmono : mono_ends l1) :
    TimeSpan.merge_spans l1 = TimeSpan.merge_spans l2 := by
  have hsort_eq : start_sorted l1 = start_sorted l2 := by
    refine sorted_perm_eq (start_sorted l1) (start_sorted l2)
      (((List.perm_insertionSort byStart l1).trans hp).trans
        (List.perm_insertionSort byStart l2).symm)
      (List.sorted_insertionSort byStart l1)
      (List.sorted_insertionSort byStart l2) ?_
    intro a ha b hb hr
    exact hmono a ((List.perm_insertionSort byStart l1).mem_iff.mp ha)
      b ((List.perm_insertionSort byStart l1).mem_iff.mp hb) hr
  unfold TimeSpan.merge_spans
  rw [hsort_eq]

/-- CLAIM C1 counterexample: merging the nested spans 0..10 and 1..2
overwrites the running end with the smaller 2, so the point 5, inside
the input union, is lost from the output union; and the two orderings
of the equal-start spans 0..5 and 0..2 sort stably into different
orders and merge to different results. -/
theorem merge_spans_claim_counterexample :
    TimeSpan.merge_spans [⟨0, 10⟩, ⟨1, 2⟩] = [⟨0, 2⟩] ∧
      mem_spans 5 [⟨0, 10⟩, ⟨1, 2⟩] ∧
      ¬ mem_spans 5 (TimeSpan.merge_spans [⟨0, 10⟩, ⟨1, 2⟩]) ∧
      TimeSpan.merge_spans [⟨0, 5⟩, ⟨0, 2⟩]
        ≠ TimeSpan.merge_spans [⟨0, 2⟩, ⟨0, 5⟩] := by
  decide

/-- CLAIM C1 as amended: merge_spans is idempotent and its output is
always sorted by start with pairwise-disjoint spans (each span ends
strictly before the next starts); when additionally no input span ends
later than any input span starting at or after it (the monotone-ends
condition, which in particular rules out nested spans and equal starts
with different ends), the union of the output equals the union of the
inputs and the result does not depend on the input order. -/
theorem merge_spans_props (l : List TimeSpan) :
    TimeSpan.merge_spans (TimeSpan.merge_spans l) = TimeSpan.merge_spans l ∧
      (TimeSpan.merge_spans l).Pairwise
        (fun a b => a.start ≤ b.start ∧ a.end_ < b.start) ∧
      (mono_ends l →
        (∀ x : Int, mem_spans x (TimeSpan.merge_spans l) ↔ mem_spans x l) ∧
        ∀ l2, l.Perm l2 →
          TimeSpan.merge_spans l = TimeSpan.merge_spans l2) := by
  refine ⟨?_, merge_spans_pairwise l, fun hmono => ⟨merge_spans_mem l hmono, ?_⟩⟩
  · exact merge_spans_of_chain _ (merge_spans_chain l)
      ((merge_spans_pairwise l).imp (fun h => h.1))
  · intro l2 hp
    exact merge_spans_perm l l2 hp hmono

/-- Witness for merge_spans_props: the disjoint spans 0..2 and 5..7 in
either order. -/
theorem merge_spans_props_witness :
    TimeSpan.merge_spans (TimeSpan.merge_spans [⟨0, 2⟩, ⟨5, 7⟩])
        = TimeSpan.merge_spans [⟨0, 2⟩, ⟨5, 7⟩] ∧
      (mem_spans 6 (TimeSpan.merge_spans [⟨0, 2⟩, ⟨5, 7⟩]) ↔
        mem_spans 6 [⟨0, 2⟩, ⟨5, 7⟩]) ∧
      TimeSpan.merge_spans [⟨0, 2⟩, ⟨5, 7⟩]
        = TimeSpan.merge_spans [⟨5, 7⟩, ⟨0, 2⟩] :=
  ⟨(merge_spans_props [⟨0, 2⟩, ⟨5, 7⟩]).1,
   ((merge_spans_props [⟨0, 2⟩, ⟨5, 7⟩]).2.2 (by decide)).1 6,
   ((merge_spans_props [⟨0, 2⟩, ⟨5, 7⟩]).2.2 (by decide)).2
     [⟨5, 7⟩, ⟨0, 2⟩] (List.Perm.swap (⟨5, 7⟩ : TimeSpan) ⟨0, 2⟩ [])⟩

/-- Witness for confirm_behaviour: the assignee itself confirms the
second requested time 20, collapsing both requested times to 20. -/
theorem confirm_behaviour_witness :
    Booking.confirm ⟨BookingState.unconfirmed, some 10, some 20, some 2, some 2⟩ 20
      = Except.ok ⟨BookingState.confirmed, some 20, none, none, some 2⟩ :=
  (confirm_behaviour ⟨BookingState.unconfirmed, some 10, some 20, some 2, some 2⟩
    20 BookingState.unconfirmed 0 (by decide)).2.2.2 (Or.inr rfl) (Or.inr rfl)

end DjangoAgenda
